import Mathlib

/-!
Verification of the `powershelldirect` communicator
(`builder/hyperv/communicator/powershelldirect`): the streaming command
session controller (`Communicator.Start` / `consumeMessages`), the
line-delimited JSON envelope decoder, `decodeBase64`, `includeSourceRoot`,
the directory-transfer exclude checks, and the `execStreamProcess`
wait/kill/cleanup state machine.

Conventions of the shallow embedding:
* Go byte slices are `List Nat` with every element `< 256`.
* Go `(value, error)` pairs become `Option` / `Except`: `none` / `.error`
  models a non-nil Go error.
* Readers (`io.Reader`) feeding the structured pump are modelled as the
  finite list of lines the `bufio.Scanner` would yield (the scanner's
  splitting on newlines, and read errors, are abstracted away: a read
  error only terminates the loop early, which is the same observable
  shape as a shorter line list).
* Go standard-library calls (`encoding/base64`, `encoding/json`,
  `strings`, `os/exec`) are re-implemented or modelled; each such
  definition documents what it models and any restriction.
-/

/-! ## Go string helpers -/

/-- Model of Go `unicode.IsSpace` restricted to the characters that can
actually occur here: the ASCII space class plus U+0085 and U+00A0
(the further Unicode space classes are never produced by this code). -/
def goIsSpace (c : Char) : Bool :=
  c = ' ' || c = '\t' || c = '\n' || c = Char.ofNat 11 || c = Char.ofNat 12 ||
  c = '\r' || c = Char.ofNat 133 || c = Char.ofNat 160

/-- Model of Go `strings.TrimSpace`: drop leading and trailing space
characters. -/
def goTrimSpace (s : String) : String :=
  String.mk (((s.data.dropWhile goIsSpace).reverse.dropWhile goIsSpace).reverse)

/-- Model of Go `strings.HasSuffix` (byte suffix; identical to character
suffix for the ASCII suffixes used here). -/
def goHasSuffix (s suffix : String) : Bool :=
  List.isSuffixOf suffix.data s.data

/-! ## Base64 (model of Go `encoding/base64` `StdEncoding`) -/

/-- The standard base64 alphabet, in index order. -/
def b64Alphabet : List Char :=
  ['A', 'B', 'C', 'D', 'E', 'F', 'G', 'H', 'I', 'J', 'K', 'L', 'M',
   'N', 'O', 'P', 'Q', 'R', 'S', 'T', 'U', 'V', 'W', 'X', 'Y', 'Z',
   'a', 'b', 'c', 'd', 'e', 'f', 'g', 'h', 'i', 'j', 'k', 'l', 'm',
   'n', 'o', 'p', 'q', 'r', 's', 't', 'u', 'v', 'w', 'x', 'y', 'z',
   '0', '1', '2', '3', '4', '5', '6', '7', '8', '9', '+', '/']

/-- Alphabet character of a 6-bit value. -/
def b64Char (i : Nat) : Char := b64Alphabet.getD i 'A'

def b64IndexAux : List Char → Nat → Char → Option Nat
  | [], _, _ => none
  | a :: rest, i, c => if c = a then some i else b64IndexAux rest (i + 1) c

/-- Index of a character in the base64 alphabet (`none` for characters
outside the alphabet, including `=`). -/
def b64Index (c : Char) : Option Nat := b64IndexAux b64Alphabet 0 c

/-- Model of Go `base64.StdEncoding.EncodeToString`, producing the
character list: three input bytes become four alphabet characters; a
final group of two or one byte is padded with `=`. -/
def encB64Chunks : List Nat → List Char
  | a :: b :: c :: rest =>
      b64Char (a / 4) :: b64Char (a % 4 * 16 + b / 16) ::
      b64Char (b % 16 * 4 + c / 64) :: b64Char (c % 64) :: encB64Chunks rest
  | [a, b] => [b64Char (a / 4), b64Char (a % 4 * 16 + b / 16), b64Char (b % 16 * 4), '=']
  | [a] => [b64Char (a / 4), b64Char (a % 4 * 16), '=', '=']
  | [] => []

/-- Go `base64.StdEncoding.EncodeToString` on a byte slice. -/
def encodeBase64 (bs : List Nat) : String := String.mk (encB64Chunks bs)

/-- Model of Go `base64.StdEncoding.Decode` on a newline-free character
list: four-character quanta, with `=` padding allowed only in the final
quantum (Go's non-strict decoder ignores the unused trailing bits). -/
def b64DecodeChunks : List Char → Option (List Nat)
  | [] => some []
  | c1 :: c2 :: c3 :: c4 :: rest =>
      match b64Index c1, b64Index c2 with
      | some i1, some i2 =>
        if c3 = '=' then
          if c4 = '=' && rest.isEmpty then some [i1 * 4 + i2 / 16] else none
        else
          match b64Index c3 with
          | some i3 =>
            if c4 = '=' then
              if rest.isEmpty then some [i1 * 4 + i2 / 16, i2 % 16 * 16 + i3 / 4] else none
            else
              match b64Index c4, b64DecodeChunks rest with
              | some i4, some tail =>
                  some ((i1 * 4 + i2 / 16) :: (i2 % 16 * 16 + i3 / 4) ::
                        (i3 % 4 * 64 + i4) :: tail)
              | _, _ => none
          | none => none
      | _, _ => none
  | _ => none

/-- Model of Go `base64.StdEncoding.DecodeString`: carriage returns and
newlines are ignored anywhere in the input, then the remainder must be
well-formed padded quanta. `none` models a non-nil `CorruptInputError`. -/
def decodeBase64Go (s : String) : Option (List Nat) :=
  b64DecodeChunks (s.data.filter (fun c => c != '\n' && c != '\r'))

/-- `decodeBase64` from the source: blank input (after `TrimSpace`)
decodes to a nil payload, otherwise defer to `base64.StdEncoding`. -/
def decodeBase64 (value : String) : Option (List Nat) :=
  if goTrimSpace value = "" then some []
  else decodeBase64Go value

/-! ## JSON envelope parsing (model of `encoding/json.Unmarshal` into
`streamMessage`)

The source unmarshals each line into
`type streamMessage struct { Stream string; Data string; Code int }`.
The model below parses one flat JSON object, ignoring unknown keys,
requiring a string value for `stream`/`data`, an integer value for
`code` (a JSON `null` leaves the field untouched, as `Unmarshal` does),
and rejecting type mismatches. Restrictions against the real library
(documented, not exercised by any envelope this system produces or by
any claim): nested containers and float literals under ignored keys are
rejected instead of skipped, `\u` string escapes are unsupported, and
leading-zero number literals are not rejected. -/

/-- Opening brace character (U+007B). -/
def lbrace : Char := Char.ofNat 123

/-- Closing brace character (U+007D). -/
def rbrace : Char := Char.ofNat 125

/-- The decoded form of one structured-protocol line, mirroring Go's
`streamMessage` struct; absent JSON fields keep the zero values. -/
structure StreamMessage where
  stream : String
  data : String
  code : Int
deriving DecidableEq, Repr

/-- JSON insignificant whitespace. -/
def skipWs (cs : List Char) : List Char :=
  cs.dropWhile (fun c => c = ' ' || c = '\t' || c = '\n' || c = '\r')

/-- Scalar JSON values the envelope parser understands. -/
inductive JValue where
  | str (s : String)
  | int (n : Int)
  | bool (b : Bool)
  | null
deriving DecidableEq, Repr

/-- Body of a JSON string after the opening quote; handles the basic
escapes, returns the decoded string and the input after the closing
quote. -/
def parseJStringAux : List Char → List Char → Option (String × List Char)
  | [], _ => none
  | '"' :: rest, acc => some (String.mk acc.reverse, rest)
  | '\\' :: e :: rest, acc =>
      match e with
      | '"' => parseJStringAux rest ('"' :: acc)
      | '\\' => parseJStringAux rest ('\\' :: acc)
      | '/' => parseJStringAux rest ('/' :: acc)
      | 'n' => parseJStringAux rest ('\n' :: acc)
      | 'r' => parseJStringAux rest ('\r' :: acc)
      | 't' => parseJStringAux rest ('\t' :: acc)
      | 'b' => parseJStringAux rest (Char.ofNat 8 :: acc)
      | 'f' => parseJStringAux rest (Char.ofNat 12 :: acc)
      | _ => none
  | c :: rest, acc => parseJStringAux rest (c :: acc)

/-- Decimal digits to a natural number. -/
def digitsToNat (ds : List Char) : Nat :=
  ds.foldl (fun acc c => acc * 10 + (c.toNat - 48)) 0

/-- Integer JSON literal; a fraction or exponent continuation is
rejected (it could not be unmarshalled into the `int` field). -/
def parseIntLit (cs : List Char) : Option (JValue × List Char) :=
  let core : List Char → Option (Nat × List Char) := fun ds =>
    let digits := ds.takeWhile Char.isDigit
    let rest := ds.dropWhile Char.isDigit
    if digits.isEmpty then none
    else match rest with
      | c :: _ => if c = '.' || c = 'e' || c = 'E' then none else some (digitsToNat digits, rest)
      | [] => some (digitsToNat digits, rest)
  match cs with
  | '-' :: ds =>
      match core ds with
      | some (n, rest) => some (JValue.int (-(n : Int)), rest)
      | none => none
  | ds =>
      match core ds with
      | some (n, rest) => some (JValue.int (n : Int), rest)
      | none => none

/-- One scalar JSON value. -/
def parseJValue (cs : List Char) : Option (JValue × List Char) :=
  match cs with
  | '"' :: rest => match parseJStringAux rest [] with
      | some (s, rest2) => some (JValue.str s, rest2)
      | none => none
  | 't' :: 'r' :: 'u' :: 'e' :: rest => some (JValue.bool true, rest)
  | 'f' :: 'a' :: 'l' :: 's' :: 'e' :: rest => some (JValue.bool false, rest)
  | 'n' :: 'u' :: 'l' :: 'l' :: rest => some (JValue.null, rest)
  | _ => parseIntLit cs

/-- Assign one parsed member to the struct, as `json.Unmarshal` does:
known keys demand the matching type (`null` is a no-op), unknown keys
are ignored. -/
def applyField (m : StreamMessage) (key : String) (v : JValue) : Option StreamMessage :=
  if key = "stream" then
    match v with
    | JValue.str s => some { m with stream := s }
    | JValue.null => some m
    | _ => none
  else if key = "data" then
    match v with
    | JValue.str s => some { m with data := s }
    | JValue.null => some m
    | _ => none
  else if key = "code" then
    match v with
    | JValue.int n => some { m with code := n }
    | JValue.null => some m
    | _ => none
  else some m

/-- The members of a JSON object (after the opening brace, first member
expected); fuelled recursion, every iteration consumes input so fuel
`length + 1` never runs out. -/
def parseMembers : Nat → List Char → StreamMessage → Option (StreamMessage × List Char)
  | 0, _, _ => none
  | fuel + 1, '"' :: rest, m =>
      match parseJStringAux rest [] with
      | none => none
      | some (key, rest1) =>
          match skipWs rest1 with
          | ':' :: rest2 =>
              match parseJValue (skipWs rest2) with
              | none => none
              | some (v, rest3) =>
                  match applyField m key v with
                  | none => none
                  | some m2 =>
                      match skipWs rest3 with
                      | ',' :: rest4 => parseMembers fuel (skipWs rest4) m2
                      | c :: rest4 => if c = rbrace then some (m2, rest4) else none
                      | [] => none
          | _ => none
  | _, _, _ => none

/-- `json.Unmarshal(line, &msg)` for one line: exactly one JSON object,
nothing but whitespace after it; `none` models a non-nil error. -/
def parseStreamMessage (s : String) : Option StreamMessage :=
  match skipWs s.data with
  | c :: rest =>
      if c = lbrace then
        let body := skipWs rest
        match body with
        | c2 :: rest2 =>
            if c2 = rbrace then
              if skipWs rest2 = [] then some ⟨"", "", 0⟩ else none
            else
              match parseMembers (body.length + 1) body ⟨"", "", 0⟩ with
              | some (m, rest3) => if skipWs rest3 = [] then some m else none
              | none => none
        | [] => none
      else none
  | [] => none

/-! ## The structured stdout pump (`Communicator.consumeMessages`) -/

/-- `commandFailureStatus` from the source. -/
def commandFailureStatus : Int := 1

/-- One write observed by a sink (`cmd.Stdout` / `cmd.Stderr`): either a
payload byte write or an `fmt.Fprintf` diagnostic line, whose formatted
text is abstracted to the fixed tag prefix it starts with. -/
inductive SinkWrite where
  | bytes (data : List Nat)
  | diag (tag : String)
deriving DecidableEq, Repr

/-- What one run of the structured pump does: the ordered writes to the
stdout sink, the ordered writes to the stderr sink, and the `SetExited`
calls it performs. -/
structure PumpResult where
  stdoutW : List SinkWrite
  stderrW : List SinkWrite
  exits : List Int
deriving DecidableEq, Repr

/-- Prepend a diagnostic to the stderr sink if the sink exists
(`cmd.Stderr != nil`). -/
def withStderrDiag (hasStderr : Bool) (tag : String) (r : PumpResult) : PumpResult :=
  if hasStderr then { r with stderrW := SinkWrite.diag tag :: r.stderrW } else r

/-- Prepend a payload write to the stdout sink. -/
def withStdoutBytes (data : List Nat) (r : PumpResult) : PumpResult :=
  { r with stdoutW := SinkWrite.bytes data :: r.stdoutW }

/-- Prepend a payload write to the stderr sink. -/
def withStderrBytes (data : List Nat) (r : PumpResult) : PumpResult :=
  { r with stderrW := SinkWrite.bytes data :: r.stderrW }

/-- One iteration of the scanner loop of `consumeMessages`, as a
function of what the remaining iterations produce (`r`). A blank line is
skipped; a line that fails to unmarshal is reported and skipped;
`stdout`/`stderr` envelopes are base64-decoded and written to the
matching sink when the sink exists and the payload is non-empty (their
writes precede the later iterations' writes, hence the prepending
frames); an `exit` envelope resolves the future with its code and
returns, discarding the rest of the stream; an unrecognised `stream`
value is reported and skipped. -/
def applyLine (line : String) (hasStdout hasStderr : Bool) (r : PumpResult) : PumpResult :=
  if goTrimSpace line = "" then r else
  match parseStreamMessage (goTrimSpace line) with
  | none => withStderrDiag hasStderr "decode stream message" r
  | some msg =>
    if msg.stream = "stdout" then
      if hasStdout then
        match decodeBase64 msg.data with
        | none => withStderrDiag hasStderr "decode stdout payload" r
        | some data =>
          if data.length > 0 then withStdoutBytes data r else r
      else r
    else if msg.stream = "stderr" then
      if hasStderr then
        match decodeBase64 msg.data with
        | none => withStderrDiag true "decode stderr payload" r
        | some data =>
          if data.length > 0 then withStderrBytes data r else r
      else r
    else if msg.stream = "exit" then ⟨[], [], [msg.code]⟩
    else withStderrDiag hasStderr "unexpected stream message type" r

/-- The scanner loop of `consumeMessages` over the lines the scanner
yields, processed left to right; when the loop falls off the end of the
stream the future is resolved with `commandFailureStatus` (the
`exitCode` variable is only ever reassigned on the returning `exit`
path, so the final `SetExited` always passes the sentinel). -/
def consumeLines : List String → Bool → Bool → PumpResult
  | [], _, _ => ⟨[], [], [commandFailureStatus]⟩
  | line :: rest, hasStdout, hasStderr =>
      applyLine line hasStdout hasStderr (consumeLines rest hasStdout hasStderr)

/-- `Communicator.consumeMessages`: a nil reader resolves the future
with `commandFailureStatus` at once, otherwise run the scanner loop.
The reader is the list of lines scanned from the process's structured
stdout; `hasStdout`/`hasStderr` state whether `cmd.Stdout`/`cmd.Stderr`
are non-nil. -/
def consumeMessages (reader : Option (List String)) (hasStdout hasStderr : Bool) : PumpResult :=
  match reader with
  | none => ⟨[], [], [commandFailureStatus]⟩
  | some lines => consumeLines lines hasStdout hasStderr

/-- A line on which the pump would take the `exit` branch. -/
def isExitLine (l : String) : Bool :=
  match parseStreamMessage (goTrimSpace l) with
  | some m => m.stream = "exit"
  | none => false

/-! ## `includeSourceRoot` -/

/-- `includeSourceRoot` from the source: an empty path or a path ending
in either slash style excludes the root. -/
def includeSourceRoot (path : String) : Bool :=
  if path = "" then false
  else if goHasSuffix path "/" || goHasSuffix path "\\" then false
  else true

/-! ## `Communicator.Start` -/

/-- The fixed guest-side scripts; their PowerShell bodies are opaque
payloads for the Runner, identified here by which constant is passed. -/
inductive ScriptId where
  | executeCommand
  | uploadFile
  | uploadDirectory
  | downloadFile
  | downloadDirectory
deriving DecidableEq, Repr

/-- The Go errors distinguished by the embedding. -/
inductive GoError where
  | nilCommand
  | ctxErr
  | spawn (tag : String)
  | unsupportedExclude
  | absErr (tag : String)
  | wslErr (tag : String)
  | mkdirErr (tag : String)
  | processDone
  | osErr (tag : String)
deriving DecidableEq, Repr

/-- `Config` from the source (trimmed credentials). -/
structure Config where
  vmName : String
  username : String
  password : String
deriving DecidableEq, Repr

/-- The communicator fields `Start` and the transfer operations read. -/
structure Communicator where
  vmName : String
  config : Config
deriving DecidableEq, Repr

/-- The caller's `packersdk.RemoteCmd` as `Start` observes it: the
command text and whether each sink is non-nil. -/
structure RemoteCmdModel where
  command : String
  hasStdout : Bool
  hasStderr : Bool
deriving DecidableEq, Repr

/-- A spawned `streamProcess` as the pumps observe it: the lines its
structured stdout yields (`none` models a nil stdout reader) and the
bytes its raw stderr yields (`none` models a nil stderr reader). -/
structure ProcessModel where
  stdout : Option (List String)
  stderrBytes : Option (List Nat)
deriving DecidableEq, Repr

/-- Everything observable about one `Start` call once its pumps have
drained: the value `Start` returned, the `runner.Stream` invocations,
the `SetExited` calls, the structured pump's sink writes, and the raw
stderr pump's sink writes (the structured and raw stderr writes are two
independently ordered append streams, kept separate). -/
structure StartResult where
  ret : Option GoError
  streamCalls : List (ScriptId × List String)
  exits : List Int
  stdoutW : List SinkWrite
  stderrW : List SinkWrite
  rawStderrW : List SinkWrite
deriving DecidableEq, Repr

/-- The raw stderr pump: `io.Copy` of the process's raw stderr into
`cmd.Stderr`, or into `io.Discard` when the sink is nil; a nil stderr
reader copies nothing. Chunking is abstracted to a single write. -/
def rawStderrPump (stream : Option (List Nat)) (hasStderr : Bool) : List SinkWrite :=
  match stream with
  | none => []
  | some bs => if hasStderr && bs.length > 0 then [SinkWrite.bytes bs] else []

/-- `Communicator.Start`. The nil check, the blank-command short
circuit, the pre-spawn cancellation check and the `runner.Stream` call
are sequential in the source; of the four tasks launched afterwards only
the structured pump calls `SetExited`, and the completion/cancellation
watchers only close the streams or kill the process, which the
finite-line reader model already accounts for. `ctxDone` is whether the
context's cancellation signal is already observable in the pre-spawn
`select`; `streamResult` is what `runner.Stream` would return. -/
def Communicator.Start (c : Communicator) (ctxDone : Bool) (cmd : Option RemoteCmdModel)
    (streamResult : Except GoError ProcessModel) : StartResult :=
  match cmd with
  | none => ⟨some GoError.nilCommand, [], [], [], [], []⟩
  | some rc =>
    if goTrimSpace rc.command = "" then ⟨none, [], [0], [], [], []⟩
    else if ctxDone then ⟨some GoError.ctxErr, [], [], [], [], []⟩
    else
      let call := (ScriptId.executeCommand,
        [c.vmName, c.config.username, c.config.password, rc.command])
      match streamResult with
      | Except.error e => ⟨some e, [call], [], [], [], []⟩
      | Except.ok proc =>
        let pump := consumeMessages proc.stdout rc.hasStdout rc.hasStderr
        ⟨none, [call], pump.exits, pump.stdoutW, pump.stderrW,
          rawStderrPump proc.stderrBytes rc.hasStderr⟩

/-! ## Directory transfer (`UploadDir` / `DownloadDir`) -/

/-- `strconv.FormatBool`. -/
def formatBool (b : Bool) : String := if b then "true" else "false"

/-- The host-environment operations the transfer code calls out to:
`filepath.Abs`, the WSL detection/translation, and `os.MkdirAll`'s
outcome. -/
structure FsEnv where
  abs : String → Except GoError String
  isWSL : Bool
  wslConvert : String → Except GoError String
  mkdirAll : String → Option GoError

/-- Filesystem side effects a transfer call performs. -/
inductive IOAction where
  | mkdirAll (path : String)
deriving DecidableEq, Repr

/-- Result of a directory-transfer call: the returned error, the
`runner.Run` invocations, and the filesystem actions attempted. -/
structure TransferResult where
  ret : Option GoError
  runCalls : List (ScriptId × List String)
  ioActions : List IOAction
deriving DecidableEq, Repr

/-- `Communicator.hostPath`: resolve to an absolute path, converting it
for the external interpreter when running under WSL. -/
def Communicator.hostPath (env : FsEnv) (path : String) : Except GoError String :=
  match env.abs path with
  | Except.error e => Except.error e
  | Except.ok absolute =>
      if env.isWSL then env.wslConvert absolute else Except.ok absolute

/-- `Communicator.UploadDir`: a non-empty exclude list fails with
`errUnsupportedExclude` before anything else; otherwise resolve the
source path and invoke the directory-copy script. -/
def Communicator.UploadDir (c : Communicator) (env : FsEnv) (dst src : String)
    (exclude : List String) : TransferResult :=
  if exclude.length > 0 then ⟨some GoError.unsupportedExclude, [], []⟩
  else
    let includeRoot := includeSourceRoot src
    match Communicator.hostPath env src with
    | Except.error e => ⟨some e, [], []⟩
    | Except.ok hostPath =>
        ⟨none,
         [(ScriptId.uploadDirectory,
           [c.vmName, c.config.username, c.config.password, hostPath, dst,
            formatBool includeRoot])], []⟩

/-- `Communicator.DownloadDir`: a non-empty exclude list fails with
`errUnsupportedExclude` before anything else; otherwise resolve the
destination, create it (and parents), and invoke the directory-copy
script. -/
def Communicator.DownloadDir (c : Communicator) (env : FsEnv) (src dst : String)
    (exclude : List String) : TransferResult :=
  if exclude.length > 0 then ⟨some GoError.unsupportedExclude, [], []⟩
  else
    let includeRoot := includeSourceRoot src
    match env.abs dst with
    | Except.error e => ⟨some e, [], []⟩
    | Except.ok destPath =>
        match env.mkdirAll destPath with
        | some e => ⟨some e, [], [IOAction.mkdirAll destPath]⟩
        | none =>
            match Communicator.hostPath env destPath with
            | Except.error e => ⟨some e, [], [IOAction.mkdirAll destPath]⟩
            | Except.ok hostPath =>
                ⟨none,
                 [(ScriptId.downloadDirectory,
                   [c.vmName, c.config.username, c.config.password, src, hostPath,
                    formatBool includeRoot])],
                 [IOAction.mkdirAll destPath]⟩

/-! ## `execStreamProcess` (wait / kill / once-guarded cleanup)

The state machine of the real stream process handle. `hasProcess`
models `cmd.Process != nil` (true as soon as `cmd.Start()` succeeded,
which is the only way the handle is constructed); `exited` models
whether the underlying OS process has been waited for; `onceDone` is the
consumed state of the `sync.Once`; `cleanupRuns` counts executions of
the cleanup closure (removal of the staged script file).

External semantics used: `os.Process.Kill` on a process that has
already been waited for returns a non-nil error (`os.ErrProcessDone`,
"process already finished" — documented behaviour of the `os` package);
before that point its outcome is the caller-supplied `osKillErr`. -/

structure ExecStreamProcess where
  hasProcess : Bool
  exited : Bool
  onceDone : Bool
  cleanupRuns : Nat
deriving DecidableEq, Repr

/-- `execStreamProcess.close`: run the cleanup through the `sync.Once`. -/
def espClose (p : ExecStreamProcess) : ExecStreamProcess :=
  if p.onceDone then p
  else { p with onceDone := true, cleanupRuns := p.cleanupRuns + 1 }

/-- `execStreamProcess.Wait`: `cmd.Wait()` (whose error is the external
`waitErr`), then `close`. -/
def espWait (p : ExecStreamProcess) (waitErr : Option GoError) :
    ExecStreamProcess × Option GoError :=
  (espClose { p with exited := true }, waitErr)

/-- `execStreamProcess.Kill`: return nil early when no process was
spawned; otherwise `cmd.Process.Kill()` then `close`, returning the kill
error. -/
def espKill (p : ExecStreamProcess) (osKillErr : Option GoError) :
    ExecStreamProcess × Option GoError :=
  if p.hasProcess then
    (espClose p, if p.exited then some GoError.processDone else osKillErr)
  else (p, none)

/-- One call made on the handle, with the external outcome it would
observe. -/
inductive EspOp where
  | wait (waitErr : Option GoError)
  | kill (osKillErr : Option GoError)

/-- State after one call. -/
def espStep (p : ExecStreamProcess) : EspOp → ExecStreamProcess
  | EspOp.wait e => (espWait p e).1
  | EspOp.kill e => (espKill p e).1

/-- State after a sequence of `Wait`/`Kill` calls. -/
def espRun (p : ExecStreamProcess) : List EspOp → ExecStreamProcess
  | [] => p
  | op :: rest => espRun (espStep p op) rest

/-! ## Lemmas about the structured pump -/

@[simp] theorem withStderrDiag_exits (h : Bool) (t : String) (r : PumpResult) :
    (withStderrDiag h t r).exits = r.exits := by
  unfold withStderrDiag; split <;> rfl

@[simp] theorem withStdoutBytes_exits (d : List Nat) (r : PumpResult) :
    (withStdoutBytes d r).exits = r.exits := rfl

@[simp] theorem withStderrBytes_exits (d : List Nat) (r : PumpResult) :
    (withStderrBytes d r).exits = r.exits := rfl

/-- Every iteration of the loop either keeps the `SetExited` trace of
the remaining iterations or replaces it with the single `exit`-envelope
resolution. -/
theorem applyLine_exits_length (l : String) (ho he : Bool) (r : PumpResult)
    (h : r.exits.length = 1) : (applyLine l ho he r).exits.length = 1 := by
  unfold applyLine
  repeat' split
  all_goals first | assumption | rfl | simp_all

/-- The scanner loop always resolves the exit-status future exactly
once, whatever the stream contains. -/
theorem consumeLines_exits_length (lines : List String) (ho he : Bool) :
    (consumeLines lines ho he).exits.length = 1 := by
  induction lines with
  | nil => rfl
  | cons l rest ih => exact applyLine_exits_length l ho he _ ih

/-- The pump always resolves the exit-status future exactly once, also
for a nil reader. -/
theorem consumeMessages_exits_length (reader : Option (List String)) (ho he : Bool) :
    (consumeMessages reader ho he).exits.length = 1 := by
  cases reader with
  | none => rfl
  | some lines => exact consumeLines_exits_length lines ho he

/-- A line that does not carry an exit envelope leaves the `SetExited`
trace of the remaining iterations unchanged. -/
theorem applyLine_exits_of_not_exit (l : String) (ho he : Bool) (r : PumpResult)
    (h : isExitLine l = false) : (applyLine l ho he r).exits = r.exits := by
  unfold applyLine
  unfold isExitLine at h
  repeat' split
  all_goals first | assumption | rfl | simp_all

/-- A stream with no exit envelope resolves the future with the failure
sentinel. -/
theorem consumeLines_no_exit (lines : List String) (ho he : Bool)
    (h : ∀ l ∈ lines, isExitLine l = false) :
    (consumeLines lines ho he).exits = [commandFailureStatus] := by
  induction lines with
  | nil => rfl
  | cons l rest ih =>
      rw [consumeLines, applyLine_exits_of_not_exit l ho he _ (h l (by simp))]
      exact ih fun x hx => h x (by simp [hx])

/-- Unmarshalling never succeeds on a blank line. -/
theorem parseStreamMessage_blank : parseStreamMessage "" = none := rfl

/-- A line carrying an exit envelope makes the iteration return the
single resolution with the envelope's code, whatever the remaining
iterations would have produced. -/
theorem applyLine_exit (l : String) (ho he : Bool) (m : StreamMessage)
    (hp : parseStreamMessage (goTrimSpace l) = some m) (hx : m.stream = "exit")
    (r : PumpResult) : applyLine l ho he r = ⟨[], [], [m.code]⟩ := by
  have ht : ¬ goTrimSpace l = "" := by
    intro h0
    rw [h0, parseStreamMessage_blank] at hp
    exact Option.noConfusion hp
  have h1 : ¬ m.stream = "stdout" := by rw [hx]; decide
  have h2 : ¬ m.stream = "stderr" := by rw [hx]; decide
  unfold applyLine
  rw [if_neg ht, hp]
  simp only [if_neg h1, if_neg h2, if_pos hx]

/-- Everything after the first exit envelope is ignored: the loop's
outcome on `pre ++ l :: post` equals its outcome with the stream
truncated right after the exit line. -/
theorem consumeLines_stops_at_exit (pre post : List String) (l : String) (ho he : Bool)
    (m : StreamMessage)
    (hp : parseStreamMessage (goTrimSpace l) = some m) (hx : m.stream = "exit") :
    consumeLines (pre ++ l :: post) ho he = consumeLines (pre ++ [l]) ho he := by
  induction pre with
  | nil =>
      simp only [List.nil_append, consumeLines]
      rw [applyLine_exit l ho he m hp hx, applyLine_exit l ho he m hp hx]
  | cons p pre ih =>
      simp only [List.cons_append, consumeLines]
      exact congrArg (applyLine p ho he) ih

/-- With no earlier exit envelope, the first exit envelope's code is the
single resolved status. -/
theorem consumeLines_exit_code (pre post : List String) (l : String) (ho he : Bool)
    (m : StreamMessage) (hpre : ∀ x ∈ pre, isExitLine x = false)
    (hp : parseStreamMessage (goTrimSpace l) = some m) (hx : m.stream = "exit") :
    (consumeLines (pre ++ l :: post) ho he).exits = [m.code] := by
  induction pre with
  | nil =>
      simp only [List.nil_append, consumeLines]
      rw [applyLine_exit l ho he m hp hx]
  | cons p pre ih =>
      simp only [List.cons_append, consumeLines]
      rw [applyLine_exits_of_not_exit p ho he _ (hpre p (by simp))]
      exact ih fun x hxm => hpre x (by simp [hxm])

/-! ## Lemmas about base64 -/

/-- Decoding inverts the alphabet table on 6-bit values. -/
theorem b64Index_b64Char (i : Nat) (h : i < 64) : b64Index (b64Char i) = some i := by
  have hall : ∀ j : Fin 64, b64Index (b64Char j.val) = some j.val := by decide
  exact hall ⟨i, h⟩

/-- Every character the encoder can emit in an alphabet position is in
the alphabet (out-of-range indices hit the `getD` default `A`). -/
theorem b64Char_mem (i : Nat) : b64Char i ∈ b64Alphabet := by
  unfold b64Char
  by_cases h : i < b64Alphabet.length
  · rw [List.getD_eq_getElem b64Alphabet 'A' h]
    exact List.getElem_mem h
  · rw [List.getD_eq_default b64Alphabet 'A' (Nat.le_of_not_lt h)]
    decide

theorem b64Char_ne_pad (i : Nat) : ¬ b64Char i = '=' := by
  have hall : ∀ c ∈ b64Alphabet, ¬ c = '=' := by decide
  exact hall _ (b64Char_mem i)

/-- Every character of an encoding is an alphabet character or the
padding character. -/
theorem encB64Chunks_good (bs : List Nat) :
    ∀ c ∈ encB64Chunks bs, c ∈ b64Alphabet ∨ c = '=' := by
  induction bs using encB64Chunks.induct with
  | case1 a b c rest ih =>
      intro x hx
      rw [encB64Chunks] at hx
      simp only [List.mem_cons] at hx
      rcases hx with h | h | h | h | h
      · exact Or.inl (h ▸ b64Char_mem _)
      · exact Or.inl (h ▸ b64Char_mem _)
      · exact Or.inl (h ▸ b64Char_mem _)
      · exact Or.inl (h ▸ b64Char_mem _)
      · exact ih x h
  | case2 a b =>
      intro x hx
      rw [encB64Chunks] at hx
      simp only [List.mem_cons, List.not_mem_nil, or_false] at hx
      rcases hx with h | h | h | h
      · exact Or.inl (h ▸ b64Char_mem _)
      · exact Or.inl (h ▸ b64Char_mem _)
      · exact Or.inl (h ▸ b64Char_mem _)
      · exact Or.inr h
  | case3 a =>
      intro x hx
      rw [encB64Chunks] at hx
      simp only [List.mem_cons, List.not_mem_nil, or_false] at hx
      rcases hx with h | h | h | h
      · exact Or.inl (h ▸ b64Char_mem _)
      · exact Or.inl (h ▸ b64Char_mem _)
      · exact Or.inr h
      · exact Or.inr h
  | case4 =>
      intro x hx
      exact absurd hx (List.not_mem_nil x)

/-- The decoder's newline filter is the identity on encoder output. -/
theorem encB64Chunks_no_crlf (bs : List Nat) :
    (encB64Chunks bs).filter (fun c => c != '\n' && c != '\r') = encB64Chunks bs := by
  rw [List.filter_eq_self]
  intro a ha
  rcases encB64Chunks_good bs a ha with h | h
  · revert h
    have hall : ∀ c ∈ b64Alphabet, (c != '\n' && c != '\r') = true := by decide
    exact hall a
  · rw [h]; decide

theorem dropWhile_eq_self_of_all {α} (p : α → Bool) (l : List α)
    (h : ∀ c ∈ l, p c = false) : l.dropWhile p = l := by
  cases l with
  | nil => rfl
  | cons a t => rw [List.dropWhile_cons, if_neg (by simp [h a (by simp)])]

/-- Trimming is the identity on strings with no space characters. -/
theorem goTrimSpace_of_no_space (s : String) (h : ∀ c ∈ s.data, goIsSpace c = false) :
    goTrimSpace s = s := by
  obtain ⟨l⟩ := s
  unfold goTrimSpace
  rw [dropWhile_eq_self_of_all _ _ h,
      dropWhile_eq_self_of_all _ _ (fun c hc => h c (by simpa using hc)),
      List.reverse_reverse]

/-- Encoder output contains no space characters. -/
theorem encodeBase64_no_space (bs : List Nat) (c : Char) (h : c ∈ encB64Chunks bs) :
    goIsSpace c = false := by
  rcases encB64Chunks_good bs c h with hm | hm
  · revert hm
    have hall : ∀ c ∈ b64Alphabet, goIsSpace c = false := by decide
    exact hall c
  · rw [hm]; decide

theorem encB64Chunks_ne_nil (bs : List Nat) (h : bs ≠ []) : encB64Chunks bs ≠ [] := by
  match bs with
  | [] => exact absurd rfl h
  | [a] => rw [encB64Chunks]; exact List.cons_ne_nil _ _
  | [a, b] => rw [encB64Chunks]; exact List.cons_ne_nil _ _
  | a :: b :: c :: rest => rw [encB64Chunks]; exact List.cons_ne_nil _ _

/-- Decoding inverts encoding chunkwise on byte input. -/
theorem b64DecodeChunks_encB64Chunks (bs : List Nat) (h : ∀ x ∈ bs, x < 256) :
    b64DecodeChunks (encB64Chunks bs) = some bs := by
  induction bs using encB64Chunks.induct with
  | case1 a b c rest ih =>
      have ha : a < 256 := h a (by simp)
      have hb : b < 256 := h b (by simp)
      have hc : c < 256 := h c (by simp)
      have hrest := ih fun x hx => h x (by simp [hx])
      have e1 : b64Index (b64Char (a / 4)) = some (a / 4) :=
        b64Index_b64Char _ (by omega)
      have e2 : b64Index (b64Char (a % 4 * 16 + b / 16)) = some (a % 4 * 16 + b / 16) :=
        b64Index_b64Char _ (by omega)
      have e3 : b64Index (b64Char (b % 16 * 4 + c / 64)) = some (b % 16 * 4 + c / 64) :=
        b64Index_b64Char _ (by omega)
      have e4 : b64Index (b64Char (c % 64)) = some (c % 64) :=
        b64Index_b64Char _ (by omega)
      rw [encB64Chunks, b64DecodeChunks]
      simp [e1, e2, e3, e4, b64Char_ne_pad _, hrest]
      omega
  | case2 a b =>
      have ha : a < 256 := h a (by simp)
      have hb : b < 256 := h b (by simp)
      have e1 : b64Index (b64Char (a / 4)) = some (a / 4) :=
        b64Index_b64Char _ (by omega)
      have e2 : b64Index (b64Char (a % 4 * 16 + b / 16)) = some (a % 4 * 16 + b / 16) :=
        b64Index_b64Char _ (by omega)
      have e3 : b64Index (b64Char (b % 16 * 4)) = some (b % 16 * 4) :=
        b64Index_b64Char _ (by omega)
      rw [encB64Chunks, b64DecodeChunks]
      simp [e1, e2, e3, b64Char_ne_pad _]
      omega
  | case3 a =>
      have ha : a < 256 := h a (by simp)
      have e1 : b64Index (b64Char (a / 4)) = some (a / 4) :=
        b64Index_b64Char _ (by omega)
      have e2 : b64Index (b64Char (a % 4 * 16)) = some (a % 4 * 16) :=
        b64Index_b64Char _ (by omega)
      rw [encB64Chunks, b64DecodeChunks]
      simp [e1, e2]
      omega
  | case4 => rfl

/-- Go's `DecodeString` inverts Go's `EncodeToString` on byte slices. -/
theorem decodeBase64_encodeBase64 (bs : List Nat) (h : ∀ x ∈ bs, x < 256) :
    decodeBase64 (encodeBase64 bs) = some bs := by
  rcases eq_or_ne bs [] with rfl | hne
  · rfl
  · have hne2 : encodeBase64 bs ≠ "" := by
      simpa [encodeBase64, String.ext_iff] using encB64Chunks_ne_nil bs hne
    have htrim : goTrimSpace (encodeBase64 bs) = encodeBase64 bs :=
      goTrimSpace_of_no_space (encodeBase64 bs) (fun c hc => encodeBase64_no_space bs c hc)
    unfold decodeBase64
    rw [htrim, if_neg hne2]
    unfold decodeBase64Go
    rw [show (encodeBase64 bs).data = encB64Chunks bs from rfl, encB64Chunks_no_crlf]
    exact b64DecodeChunks_encB64Chunks bs h

/-! ## Lemmas about the process handle -/

theorem espClose_of_once (q : ExecStreamProcess) (h : q.onceDone = true) : espClose q = q := by
  unfold espClose; rw [if_pos h]

theorem espClose_of_fresh (q : ExecStreamProcess) (h : q.onceDone = false) :
    espClose q = { q with onceDone := true, cleanupRuns := q.cleanupRuns + 1 } := by
  unfold espClose; rw [if_neg (by simp [h])]

theorem espClose_onceDone (q : ExecStreamProcess) : (espClose q).onceDone = true := by
  unfold espClose; split
  · assumption
  · rfl

theorem espClose_hasProcess (q : ExecStreamProcess) :
    (espClose q).hasProcess = q.hasProcess := by
  unfold espClose; split <;> rfl

theorem espClose_exited (q : ExecStreamProcess) : (espClose q).exited = q.exited := by
  unfold espClose; split <;> rfl

theorem espKill_state (q : ExecStreamProcess) (e : Option GoError) :
    (espKill q e).1 = if q.hasProcess then espClose q else q := by
  unfold espKill; split <;> rfl

/-- Once the `sync.Once` has fired, no call changes the cleanup count. -/
theorem espStep_once (q : ExecStreamProcess) (op : EspOp) (h : q.onceDone = true) :
    (espStep q op).onceDone = true ∧ (espStep q op).cleanupRuns = q.cleanupRuns := by
  cases op with
  | wait e =>
      show (espClose { q with exited := true }).onceDone = true ∧
        (espClose { q with exited := true }).cleanupRuns = q.cleanupRuns
      rw [espClose_of_once { q with exited := true } h]
      exact ⟨h, rfl⟩
  | kill e =>
      show ((espKill q e).1).onceDone = true ∧ ((espKill q e).1).cleanupRuns = q.cleanupRuns
      unfold espKill
      split
      · rw [espClose_of_once q h]
        exact ⟨h, rfl⟩
      · exact ⟨h, rfl⟩

theorem espRun_once (ops : List EspOp) : ∀ q : ExecStreamProcess, q.onceDone = true →
    (espRun q ops).cleanupRuns = q.cleanupRuns := by
  induction ops with
  | nil => intro q _; rfl
  | cons op rest ih =>
      intro q h
      have hs := espStep_once q op h
      rw [espRun, ih _ hs.1, hs.2]

/-- The first call on a freshly started handle runs the cleanup. -/
theorem espStep_fresh (q : ExecStreamProcess) (op : EspOp) (hp : q.hasProcess = true)
    (h : q.onceDone = false) (h0 : q.cleanupRuns = 0) :
    (espStep q op).onceDone = true ∧ (espStep q op).cleanupRuns = 1 := by
  cases op with
  | wait e =>
      show (espClose { q with exited := true }).onceDone = true ∧
        (espClose { q with exited := true }).cleanupRuns = 1
      rw [espClose_of_fresh { q with exited := true } h]
      exact ⟨rfl, by simp [h0]⟩
  | kill e =>
      show ((espKill q e).1).onceDone = true ∧ ((espKill q e).1).cleanupRuns = 1
      unfold espKill
      rw [if_pos hp, espClose_of_fresh q h]
      exact ⟨rfl, by simp [h0]⟩

/-! ## The claims -/

/-- Claim C1: for every RemoteCommand accepted by `Start` (`Start`
returned nil), the exit-status future is resolved — `SetExited` is
called — exactly once, on every execution path: the blank-command path,
the path where cancellation kills the process and the stream closes, the
protocol-exit-envelope path, and the stream-closed-without-exit path. -/
theorem claim_C1_exit_future_resolved_once (c : Communicator) (ctxDone : Bool)
    (cmd : Option RemoteCmdModel) (sr : Except GoError ProcessModel)
    (h : (Communicator.Start c ctxDone cmd sr).ret = none) :
    (Communicator.Start c ctxDone cmd sr).exits.length = 1 := by
  cases cmd with
  | none => exact absurd h (by simp [Communicator.Start])
  | some rc =>
      simp only [Communicator.Start] at h ⊢
      by_cases hb : goTrimSpace rc.command = ""
      · simp only [if_pos hb]
        rfl
      · by_cases hc : ctxDone = true
        · rw [if_neg hb, if_pos hc] at h
          exact absurd h (by simp)
        · cases sr with
          | error e =>
              rw [if_neg hb, if_neg hc] at h
              exact absurd h (by simp)
          | ok proc =>
              rw [if_neg hb, if_neg hc]
              exact consumeMessages_exits_length proc.stdout rc.hasStdout rc.hasStderr

theorem claim_C1_witness :
    (Communicator.Start ⟨"vm", ⟨"vm", "user", "pass"⟩⟩ false
        (some ⟨"dir C:", true, true⟩)
        (Except.ok ⟨some ["\x7b\"stream\":\"exit\",\"code\":0\x7d"], some []⟩)).ret = none ∧
    (Communicator.Start ⟨"vm", ⟨"vm", "user", "pass"⟩⟩ false
        (some ⟨"dir C:", true, true⟩)
        (Except.ok ⟨some ["\x7b\"stream\":\"exit\",\"code\":0\x7d"], some []⟩)).exits.length = 1 :=
  ⟨by decide, claim_C1_exit_future_resolved_once _ _ _ _ (by decide)⟩

/-- The three-line example session of the spec, written as the decoder
receives it. -/
def helloCRLF : List Nat := [104, 101, 108, 108, 111, 13, 10]

def thereCRLF : List Nat := [116, 104, 101, 114, 101, 13, 10]

/-- Claim C2: on the stream carrying a `stdout` envelope with
base64("hello\r\n"), a `stderr` envelope with base64("there\r\n") and an
exit envelope with code 7, the decoder writes exactly the bytes of
"hello\r\n" to the stdout sink, exactly the bytes of "there\r\n" to the
stderr sink (line terminators preserved verbatim), and resolves the
exit-status future with 7. -/
theorem claim_C2_three_line_stream :
    consumeMessages (some
      ["\x7b\"stream\":\"stdout\",\"data\":\"" ++ encodeBase64 helloCRLF ++ "\"\x7d",
       "\x7b\"stream\":\"stderr\",\"data\":\"" ++ encodeBase64 thereCRLF ++ "\"\x7d",
       "\x7b\"stream\":\"exit\",\"code\":7\x7d"]) true true =
      ⟨[SinkWrite.bytes helloCRLF], [SinkWrite.bytes thereCRLF], [7]⟩ := by decide

/-- Claim C3: a structured stream that ends without ever producing an
exit envelope — whatever mix of blank, malformed, `stdout` or `stderr`
lines it held — resolves the exit-status future with the fixed failure
sentinel, and that sentinel is 1. -/
theorem claim_C3_no_exit_envelope_sentinel (lines : List String) (ho he : Bool)
    (h : ∀ l ∈ lines, isExitLine l = false) :
    (consumeMessages (some lines) ho he).exits = [commandFailureStatus] ∧
      commandFailureStatus = 1 :=
  ⟨consumeLines_no_exit lines ho he h, rfl⟩

theorem claim_C3_witness :
    (consumeMessages (some
      ["", "this is not json",
       "\x7b\"stream\":\"stdout\",\"data\":\"aGk=\"\x7d",
       "\x7b\"stream\":\"stderr\",\"data\":\"b2g=\"\x7d"]) true true).exits =
      [commandFailureStatus] :=
  (claim_C3_no_exit_envelope_sentinel _ true true (by decide)).1

/-- Claim C4: once an exit envelope is processed the pump resolves the
future with that envelope's `code` field and stops consuming: the
outcome on `pre ++ l :: post` (with no exit envelope in `pre` and `l`
carrying the exit envelope) is identical to the outcome with `post`
removed, and the single resolved status is the envelope's code. -/
theorem claim_C4_exit_envelope_stops_pump (pre post : List String) (l : String)
    (ho he : Bool) (m : StreamMessage)
    (hpre : ∀ x ∈ pre, isExitLine x = false)
    (hp : parseStreamMessage (goTrimSpace l) = some m) (hx : m.stream = "exit") :
    consumeLines (pre ++ l :: post) ho he = consumeLines (pre ++ [l]) ho he ∧
      (consumeLines (pre ++ l :: post) ho he).exits = [m.code] :=
  ⟨consumeLines_stops_at_exit pre post l ho he m hp hx,
   consumeLines_exit_code pre post l ho he m hpre hp hx⟩

theorem claim_C4_witness :
    consumeLines
        (["garbage"] ++ "\x7b\"stream\":\"exit\",\"code\":5\x7d" ::
          ["\x7b\"stream\":\"stdout\",\"data\":\"aGk=\"\x7d"]) true true =
      consumeLines (["garbage"] ++ ["\x7b\"stream\":\"exit\",\"code\":5\x7d"]) true true ∧
    (consumeLines
        (["garbage"] ++ "\x7b\"stream\":\"exit\",\"code\":5\x7d" ::
          ["\x7b\"stream\":\"stdout\",\"data\":\"aGk=\"\x7d"]) true true).exits = [5] :=
  claim_C4_exit_envelope_stops_pump ["garbage"]
    ["\x7b\"stream\":\"stdout\",\"data\":\"aGk=\"\x7d"]
    "\x7b\"stream\":\"exit\",\"code\":5\x7d" true true ⟨"exit", "", 5⟩
    (by decide) (by decide) rfl

/-- Claim C5: with the cancellation signal already observable when
`Start` is called on a non-nil, non-blank command, `Start` returns the
context's cancellation error and performs zero Runner calls — no
`Stream` invocation, hence no process spawned, and no `SetExited`. -/
theorem claim_C5_precancelled_start (c : Communicator) (rc : RemoteCmdModel)
    (sr : Except GoError ProcessModel) (h : goTrimSpace rc.command ≠ "") :
    Communicator.Start c true (some rc) sr =
      ⟨some GoError.ctxErr, [], [], [], [], []⟩ := by
  simp only [Communicator.Start]
  rw [if_neg h]
  simp

theorem claim_C5_witness :
    Communicator.Start ⟨"vm", ⟨"vm", "user", "pass"⟩⟩ true (some ⟨"noop", true, true⟩)
        (Except.ok ⟨some [], some []⟩) =
      ⟨some GoError.ctxErr, [], [], [], [], []⟩ :=
  claim_C5_precancelled_start _ _ _ (by decide)

/-- Claim C6: a command whose text is blank (empty or whitespace-only)
makes `Start` resolve the exit-status future to success (code 0)
immediately, return nil, and make zero Runner calls, whatever the
cancellation state or the runner would have done. -/
theorem claim_C6_blank_command (c : Communicator) (ctxDone : Bool) (rc : RemoteCmdModel)
    (sr : Except GoError ProcessModel) (h : goTrimSpace rc.command = "") :
    Communicator.Start c ctxDone (some rc) sr = ⟨none, [], [0], [], [], []⟩ := by
  simp only [Communicator.Start]
  rw [if_pos h]

theorem claim_C6_witness :
    Communicator.Start ⟨"vm", ⟨"vm", "user", "pass"⟩⟩ false (some ⟨"   ", true, true⟩)
        (Except.ok ⟨some [], some []⟩) =
      ⟨none, [], [0], [], [], []⟩ :=
  claim_C6_blank_command _ _ _ _ (by decide)

/-- Claim C7: for every non-empty exclude list, `UploadDir` and
`DownloadDir` fail immediately with the dedicated unsupported-exclude
error, perform zero Runner invocations, and perform no filesystem
actions before failing. -/
theorem claim_C7_exclude_rejected (c : Communicator) (env : FsEnv) (dst src : String)
    (exclude : List String) (h : exclude ≠ []) :
    Communicator.UploadDir c env dst src exclude =
        ⟨some GoError.unsupportedExclude, [], []⟩ ∧
      Communicator.DownloadDir c env src dst exclude =
        ⟨some GoError.unsupportedExclude, [], []⟩ := by
  have hl : exclude.length > 0 := List.length_pos.mpr h
  constructor
  · unfold Communicator.UploadDir
    rw [if_pos hl]
  · unfold Communicator.DownloadDir
    rw [if_pos hl]

/-- An environment with inert host operations, for instantiating
transfer theorems. -/
def trivialFsEnv : FsEnv :=
  ⟨fun s => Except.ok s, false, fun s => Except.ok s, fun _ => none⟩

theorem claim_C7_witness :
    Communicator.UploadDir ⟨"vm", ⟨"vm", "user", "pass"⟩⟩ trivialFsEnv "/remote" "/local"
        ["*.tmp"] = ⟨some GoError.unsupportedExclude, [], []⟩ ∧
      Communicator.DownloadDir ⟨"vm", ⟨"vm", "user", "pass"⟩⟩ trivialFsEnv "/local" "/remote"
        ["*.tmp"] = ⟨some GoError.unsupportedExclude, [], []⟩ :=
  claim_C7_exclude_rejected _ trivialFsEnv "/remote" "/local" ["*.tmp"] (by decide)

/-- Claim C8: `includeSourceRoot` is false on the empty path, false on
any path ending in a trailing separator of either slash style, and true
on any non-empty path with no trailing separator; in particular on the
spec's four examples. -/
theorem claim_C8_includeSourceRoot :
    includeSourceRoot "" = false ∧
    includeSourceRoot "C:/dir" = true ∧
    includeSourceRoot "C:/dir/" = false ∧
    includeSourceRoot "/tmp/dir/" = false ∧
    (∀ p : String, (goHasSuffix p "/" || goHasSuffix p "\\") = true →
      includeSourceRoot p = false) ∧
    (∀ p : String, p ≠ "" → goHasSuffix p "/" = false → goHasSuffix p "\\" = false →
      includeSourceRoot p = true) := by
  refine ⟨by decide, by decide, by decide, by decide, ?_, ?_⟩
  · intro p h
    unfold includeSourceRoot
    by_cases hp : p = ""
    · rw [if_pos hp]
    · rw [if_neg hp, if_pos h]
  · intro p h1 h2 h3
    unfold includeSourceRoot
    rw [if_neg h1, if_neg (by simp [h2, h3])]

theorem claim_C8_witness : includeSourceRoot "C:/data" = true :=
  claim_C8_includeSourceRoot.2.2.2.2.2 "C:/data" (by decide) (by decide) (by decide)

/-- Claim C9: `decodeBase64` of the empty string succeeds with an empty
payload; `decodeBase64` of the base64 encoding of any byte sequence
succeeds and round-trips to the original bytes; `decodeBase64` of an
invalid base64 string returns an error. -/
theorem claim_C9_decodeBase64 :
    decodeBase64 "" = some [] ∧
    (∀ bs : List Nat, (∀ x ∈ bs, x < 256) → decodeBase64 (encodeBase64 bs) = some bs) ∧
    decodeBase64 "not-base64" = none :=
  ⟨by decide, decodeBase64_encodeBase64, by decide⟩

theorem claim_C9_witness :
    decodeBase64 (encodeBase64 [104, 101, 108, 108, 111]) = some [104, 101, 108, 108, 111] :=
  claim_C9_decodeBase64.2.1 [104, 101, 108, 108, 111] (by decide)

/-- Claim C10, counterexample to "calling Kill after Wait has already
returned does not error": on a freshly started handle, `Wait` followed
by `Kill` makes `Kill` return the non-nil error of killing an
already-finished process (`Kill` forwards `cmd.Process.Kill()`'s result,
and the `os` package returns its process-done error once the process has
been waited for), not nil. -/
theorem claim_C10_counterexample :
    (espKill (espWait ⟨true, false, false, 0⟩ none).1 none).2 ≠ none := by decide

/-- Claim C10 as amended: on a started `StreamProcess`, calling Kill
after Wait has already returned terminates without hanging, leaves the
handle state unchanged (in particular the cleanup does not run again),
but returns the underlying already-finished kill error rather than nil;
Kill is idempotent on the handle state; and the resource cleanup —
removal of the staged script file — runs exactly once no matter in which
order or how many times Wait and Kill are called. -/
theorem claim_C10_wait_kill_cleanup (p : ExecStreamProcess)
    (waitErr osKillErr : Option GoError) (hp : p.hasProcess = true) :
    ((espKill (espWait p waitErr).1 osKillErr).1 = (espWait p waitErr).1) ∧
    ((espKill (espWait p waitErr).1 osKillErr).2 = some GoError.processDone) ∧
    (∀ (q : ExecStreamProcess) (e1 e2 : Option GoError),
      (espKill (espKill q e1).1 e2).1 = (espKill q e1).1) ∧
    (∀ ops : List EspOp, ops ≠ [] → p.onceDone = false → p.cleanupRuns = 0 →
      (espRun p ops).cleanupRuns = 1) := by
  refine ⟨?_, ?_, ?_, ?_⟩
  · show (espKill (espClose { p with exited := true }) osKillErr).1 =
      espClose { p with exited := true }
    rw [espKill_state, if_pos (by rw [espClose_hasProcess]; exact hp),
      espClose_of_once _ (espClose_onceDone _)]
  · show (espKill (espClose { p with exited := true }) osKillErr).2 =
      some GoError.processDone
    unfold espKill
    rw [if_pos (by rw [espClose_hasProcess]; exact hp : _ = true),
      if_pos (by rw [espClose_exited] : _ = true)]
  · intro q e1 e2
    by_cases hq : q.hasProcess = true
    · rw [espKill_state q e1, if_pos hq, espKill_state,
        if_pos (by rw [espClose_hasProcess]; exact hq),
        espClose_of_once _ (espClose_onceDone _)]
    · rw [espKill_state q e1, if_neg hq, espKill_state, if_neg hq]
  · intro ops hne h0 hc
    match ops with
    | [] => exact absurd rfl hne
    | op :: rest =>
        have hs := espStep_fresh p op hp h0 hc
        rw [espRun, espRun_once rest _ hs.1, hs.2]

theorem claim_C10_witness :
    (espRun ⟨true, false, false, 0⟩ [EspOp.wait none, EspOp.kill none]).cleanupRuns = 1 :=
  (claim_C10_wait_kill_cleanup ⟨true, false, false, 0⟩ none none rfl).2.2.2
    [EspOp.wait none, EspOp.kill none] (List.cons_ne_nil _ _) rfl rfl
